import Mathlib

/-!
Verification of the basic block-import queue
(`substrate/client/consensus/common/src/import_queue/basic_queue.rs`).

The Rust component is a single cooperative worker that multiplexes a
justification input channel (drained to exhaustion, first) and a
block-import sub-process (polled once per loop iteration), delivering outcomes
on a result channel.  We embed the pure data transformations directly
and model the async control flow as an explicit fuel-driven state machine
whose observable behaviour is the ordered list of messages delivered to
the result channel.  External collaborators (`Verifier`, `BlockImport`,
`JustificationImport`) are parameters, as in the source, modelled by
oracle functions.
-/

/-- Block hashes (`B::Hash`), abstracted. -/
abbrev Hash := Nat

/-- Peer identities (`RuntimeOrigin`), abstracted. -/
abbrev PeerId := Nat

/-- Block numbers (`NumberFor<B>`), abstracted. -/
abbrev BlockNumber := Nat

/-- Consensus engine identifier (4-byte tag in the source), abstracted. -/
abbrev ConsensusEngineId := Nat

/-- `Justification = (ConsensusEngineId, EncodedJustification)`. -/
abbrev Justification := ConsensusEngineId × List Nat

/-- The part of a block header that `basic_queue.rs` consults (`h.number()`). -/
structure Header where
  number : BlockNumber
deriving DecidableEq

/-- `BlockOrigin` (sp_consensus): provenance tag of a block request. -/
inductive BlockOrigin where
  | genesis
  | networkInitialSync
  | networkBroadcast
  | consensusBroadcast
  | own
  | file
deriving DecidableEq

/-- `IncomingBlock<B>`: one block handed to the queue.  Payload fields the
queue never inspects (body, indexed body, justifications, peer origin,
precomputed state) are kept as opaque `Option Unit`. -/
structure IncomingBlock where
  hash : Hash
  header : Option Header
  body : Option Unit
  indexed_body : Option Unit
  justifications : Option Unit
  origin : Option Unit
  allow_missing_state : Bool
  import_existing : Bool
  skip_execution : Bool
  state : Option Unit
deriving DecidableEq

/-- Modelled from the spec: `BlockImportStatus` is the external
success-with-status type; its payload is opaque to the queue core. -/
structure BlockImportStatus where
  payload : Nat
deriving DecidableEq

/-- Modelled from the spec: `BlockImportError` is the external per-block
failure type; only `Cancelled` is distinguished by the queue core, which
assigns it to blocks skipped after an earlier failure in the same batch. -/
inductive BlockImportError where
  | verificationFailed
  | badBlock
  | missingState
  | unknownParent
  | cancelled
  | other
deriving DecidableEq

/-- Per-block import result, mirroring
`Result<BlockImportStatus, BlockImportError>`. -/
inductive BlockResult where
  | ok (status : BlockImportStatus)
  | err (e : BlockImportError)
deriving DecidableEq

/-- `BlockResult.isOk` mirrors `Result::is_ok`. -/
def BlockResult.isOk : BlockResult → Bool
  | .ok _ => true
  | .err _ => false

/-- Opaque adjusted import parameters produced by verification
(`BlockImportParams` after `verify`). -/
structure ImportParams where
  payload : Nat
deriving DecidableEq

/-- `SingleBlockVerificationOutcome`: verification either reports the block
already fully imported, or yields adjusted parameters for the import call. -/
inductive SingleBlockVerificationOutcome where
  | imported (status : BlockImportStatus)
  | verified (params : ImportParams)
deriving DecidableEq

/-- Modelled from the spec: verification error distinct from import success.
Verification returns `Result<SingleBlockVerificationOutcome, BlockImportError>`. -/
inductive VerifyResult where
  | ok (outcome : SingleBlockVerificationOutcome)
  | err (e : BlockImportError)
deriving DecidableEq

/-- The external collaborators consumed per block: the verification step
(`verify_single_block_metered`) and the import step
(`import_single_block_metered`), as oracle functions. -/
structure Collaborators where
  verify : BlockOrigin → IncomingBlock → VerifyResult
  importBlock : ImportParams → BlockResult

/-- Observable collaborator invocations and suspension points inside one
batch (`import_many_blocks`). -/
inductive BatchEvent where
  | verifyCalled (h : Hash)
  | importCalled (h : Hash)
  | yielded
deriving DecidableEq

/-- One non-cancelled block of `import_many_blocks`: await verification;
on `Imported` take the status directly, on `Verified` run the
actual import, on error propagate it.  Also records which collaborators ran. -/
def processOneBlock (c : Collaborators) (origin : BlockOrigin)
    (block : IncomingBlock) : BlockResult × List BatchEvent :=
  match c.verify origin block with
  | .ok (.imported status) => (.ok status, [.verifyCalled block.hash])
  | .ok (.verified params) =>
      (c.importBlock params, [.verifyCalled block.hash, .importCalled block.hash])
  | .err e => (.err e, [.verifyCalled block.hash])

/-- Accumulator of the `import_many_blocks` loop: imported counter,
ordered results, the `has_error` fail-fast flag, and the event log. -/
structure BatchState where
  imported : Nat
  results : List (BlockResult × Hash)
  has_error : Bool
  events : List BatchEvent
deriving DecidableEq

/-- Initial accumulator of the `import_many_blocks` loop. -/
def initialBatchState : BatchState := ⟨0, [], false, []⟩

/-- One iteration of the `import_many_blocks` loop body on a block: if the
batch already failed the outcome is `Cancelled` with no collaborator call;
otherwise the block is verified and imported.  `imported` is bumped on
success, `has_error` set on failure, the result appended, and one `Yield`
awaited. -/
def importStep (c : Collaborators) (origin : BlockOrigin) (st : BatchState)
    (block : IncomingBlock) : BatchState :=
  let (import_result, evs) :=
    if st.has_error then ((.err .cancelled : BlockResult), ([] : List BatchEvent))
    else processOneBlock c origin block
  { imported := if import_result.isOk then st.imported + 1 else st.imported
    results := st.results ++ [(import_result, block.hash)]
    has_error := st.has_error || !import_result.isOk
    events := st.events ++ evs ++ [.yielded] }

/-- `ImportManyBlocksResult`: imported count, total count and the ordered
per-block results, plus the observable event log. -/
structure ImportManyBlocksResult where
  imported : Nat
  block_count : Nat
  results : List (BlockResult × Hash)
  events : List BatchEvent
deriving DecidableEq

/-- `import_many_blocks`: sequentially verify and import a batch,
fail-fast within the batch, yielding once after every block. -/
def import_many_blocks (c : Collaborators) (origin : BlockOrigin)
    (blocks : List IncomingBlock) : ImportManyBlocksResult :=
  let final := blocks.foldl (importStep c origin) initialBatchState
  ⟨final.imported, blocks.length, final.results, final.events⟩

/-- `JustificationImportResult`: classification of one
justification import, delivered through the Link. -/
inductive JustificationImportResult where
  | success
  | outdatedJustification
  | failure
deriving DecidableEq

/-- Modelled from the spec: the external `sp_consensus::Error`; the queue
core distinguishes only `OutdatedJustification` from every other error. -/
inductive ConsensusError where
  | outdatedJustification
  | other
deriving DecidableEq

/-- The `JustificationImport` collaborator: `on_start` returns blocks that
still need a justification; `import_justification` imports one payload. -/
structure JustificationImportOracle where
  on_start : List (Hash × BlockNumber)
  import_justification : Hash → BlockNumber → Justification →
    Except ConsensusError Unit

/-- The classification performed by `BlockImportWorker::import_justification`:
with a configured collaborator, `Ok(()) ↦ Success`,
`Err(OutdatedJustification) ↦ OutdatedJustification`, any other error
`↦ Failure`; with no collaborator the result is `Failure`. -/
def import_justification_result (ji : Option JustificationImportOracle)
    (hash : Hash) (number : BlockNumber) (justification : Justification) :
    JustificationImportResult :=
  match ji with
  | some j =>
      match j.import_justification hash number justification with
      | .ok _ => .success
      | .error .outdatedJustification => .outdatedJustification
      | .error _ => .failure
  | none => .failure

/-- `worker_messages::ImportBlocks`. -/
structure ImportBlocksMsg where
  origin : BlockOrigin
  blocks : List IncomingBlock
deriving DecidableEq

/-- `worker_messages::ImportJustification`. -/
structure ImportJustificationMsg where
  who : PeerId
  hash : Hash
  number : BlockNumber
  justification : Justification
deriving DecidableEq

/-- A message delivered on the result channel (the three `Link` calls a
`BufferedLinkSender` can forward). -/
inductive OutMsg where
  | blocksProcessed (imported : Nat) (total : Nat)
      (results : List (BlockResult × Hash))
  | justificationImported (who : PeerId) (hash : Hash) (number : BlockNumber)
      (result : JustificationImportResult)
  | requestJustification (hash : Hash) (number : BlockNumber)
deriving DecidableEq

/-- The outcome message the worker sends for one justification request
(tail of `BlockImportWorker::import_justification`). -/
def justificationOutcome (ji : Option JustificationImportOracle)
    (m : ImportJustificationMsg) : OutMsg :=
  .justificationImported m.who m.hash m.number
    (import_justification_result ji m.hash m.number m.justification)

/-- The `while let Poll::Ready(..)` drain of the justification channel:
every currently available request is processed fully, in FIFO order, each
producing one `justification_imported` delivery. -/
def drainJustifications (ji : Option JustificationImportOracle)
    (msgs : List ImportJustificationMsg) : List OutMsg :=
  msgs.map (justificationOutcome ji)

/-- Suspension state of `block_import_process`: either parked on
`block_import_receiver.next().await`, or parked on the `Yield` inside
`import_many_blocks` with a batch partially processed (`origin`, the
accumulated `BatchState`, the blocks still to import, and the batch's
total `count`). -/
inductive BIPState where
  | awaitingBatch
  | midBatch (origin : BlockOrigin) (st : BatchState)
      (remaining : List IncomingBlock) (count : Nat)
deriving DecidableEq

/-- Result of polling `block_import_process` once: its new suspension
state, the remaining block-channel contents, the result-channel messages
emitted during this poll, and whether the process returned (`Ready(())`). -/
structure BIPPollResult where
  state : BIPState
  queue : List ImportBlocksMsg
  out : List OutMsg
  done : Bool
deriving DecidableEq

/-- `block_import_receiver.next().await` followed by the start of
`import_many_blocks`: an empty channel suspends (or concludes the process
when the channel is closed); a batch is taken and its first block imported
before suspending at the first `Yield`; an empty batch completes at once,
its (empty) result is delivered, and the loop awaits the next batch. -/
def bipReceive (c : Collaborators) :
    List ImportBlocksMsg → Bool → BIPPollResult
  | [], closed => ⟨.awaitingBatch, [], [], closed⟩
  | msg :: rest, closed =>
      match msg.blocks with
      | [] =>
          let r := bipReceive c rest closed
          { r with out := .blocksProcessed 0 0 [] :: r.out }
      | b :: bs =>
          ⟨.midBatch msg.origin (importStep c msg.origin initialBatchState b) bs
              (msg.blocks.length),
            rest, [], false⟩

/-- One poll of `block_import_process`: resuming at a `Yield` imports the
next block of the current batch and suspends again, or — when the batch is
exhausted — delivers its result via `blocks_processed` in a single call and
awaits the next batch; resuming at the receive point awaits a batch. -/
def pollBIP (c : Collaborators) (st : BIPState)
    (queue : List ImportBlocksMsg) (closed : Bool) : BIPPollResult :=
  match st with
  | .awaitingBatch => bipReceive c queue closed
  | .midBatch origin bst remaining count =>
      match remaining with
      | b :: bs =>
          ⟨.midBatch origin (importStep c origin bst b) bs count, queue, [], false⟩
      | [] =>
          let r := bipReceive c queue closed
          { r with out := .blocksProcessed bst.imported count bst.results :: r.out }

/-- The worker's mutable world: whether the consumer closed the result
channel, the two input channels (pending messages plus closed flag), and
the block-import sub-process suspension state. -/
structure WorkerState where
  resultClosed : Bool
  justQueue : List ImportJustificationMsg
  justClosed : Bool
  blockQueue : List ImportBlocksMsg
  blockClosed : Bool
  bip : BIPState
deriving DecidableEq

/-- Result of one poll of the worker future. -/
inductive WorkerPoll where
  | ready
  | pending
deriving DecidableEq

/-- One iteration of the worker loop (one poll of the worker future after
start-up): check the result channel for consumer-initiated shutdown, drain
the justification channel to exhaustion (terminating if it is closed once
drained), then poll the block-import sub-process exactly once (terminating
if it concluded), and otherwise suspend via `pending!()`. -/
def workerPoll (c : Collaborators) (ji : Option JustificationImportOracle)
    (s : WorkerState) : WorkerState × List OutMsg × WorkerPoll :=
  if s.resultClosed then (s, [], .ready)
  else
    let justOut := drainJustifications ji s.justQueue
    let s1 := { s with justQueue := [] }
    if s.justClosed then (s1, justOut, .ready)
    else
      let r := pollBIP c s.bip s.blockQueue s.blockClosed
      ({ s1 with bip := r.state, blockQueue := r.queue },
        justOut ++ r.out, if r.done then .ready else .pending)

/-- Drive the worker for at most `fuel` polls, collecting the delivered
messages; the boolean reports whether the worker future returned. -/
def workerRun (c : Collaborators) (ji : Option JustificationImportOracle) :
    Nat → WorkerState → WorkerState × List OutMsg × Bool
  | 0, s => (s, [], false)
  | fuel + 1, s =>
      match workerPoll c ji s with
      | (s', out, .ready) => (s', out, true)
      | (s', out, .pending) =>
          let (s'', out', t) := workerRun c ji fuel s'
          (s'', out ++ out', t)

/-- Start-up of `BlockImportWorker::new`'s future: with a configured
justification-import collaborator, await `on_start()` and emit one
`request_justification` per returned pair, in order; otherwise nothing. -/
def workerStartupOut (ji : Option JustificationImportOracle) : List OutMsg :=
  match ji with
  | some j => j.on_start.map (fun p => .requestJustification p.1 p.2)
  | none => []

/-- Everything the worker delivers on the result channel: the start-up
notifications followed by the main-loop deliveries. -/
def workerTrace (c : Collaborators) (ji : Option JustificationImportOracle)
    (fuel : Nat) (s : WorkerState) : List OutMsg :=
  workerStartupOut ji ++ (workerRun c ji fuel s).2.1

/-- Sender side of an unbounded channel as the front-end handle sees it:
the messages it has enqueued (and the worker has not yet received) plus
whether the channel has been closed. -/
structure ChannelState (α : Type) where
  queue : List α
  closed : Bool
deriving DecidableEq

/-- `BasicQueueHandle`: the two channel senders owned by the front-end. -/
structure BasicQueueHandle where
  justification_sender : ChannelState ImportJustificationMsg
  block_import_sender : ChannelState ImportBlocksMsg
deriving DecidableEq

/-- `unbounded_send`: enqueue unless the channel is closed; a failed send
is logged and dropped (fire-and-forget). -/
def ChannelState.unbounded_send {α : Type} (ch : ChannelState α) (msg : α) :
    ChannelState α :=
  if ch.closed then ch else { ch with queue := ch.queue ++ [msg] }

/-- `BasicQueueHandle::close`: close both outgoing channels. -/
def BasicQueueHandle.close (h : BasicQueueHandle) : BasicQueueHandle :=
  { justification_sender := { h.justification_sender with closed := true }
    block_import_sender := { h.block_import_sender with closed := true } }

/-- `BasicQueueHandle::import_blocks`: a no-op on an empty block list,
otherwise one `ImportBlocks` message is pushed onto the unbounded block
channel. -/
def BasicQueueHandle.import_blocks (h : BasicQueueHandle)
    (origin : BlockOrigin) (blocks : List IncomingBlock) : BasicQueueHandle :=
  if blocks.isEmpty then h
  else
    { h with block_import_sender :=
        h.block_import_sender.unbounded_send ⟨origin, blocks⟩ }

/-- `BasicQueueHandle::import_justifications`: one `ImportJustification`
message per entry of the justification set. -/
def BasicQueueHandle.import_justifications (h : BasicQueueHandle)
    (who : PeerId) (hash : Hash) (number : BlockNumber)
    (justifications : List Justification) : BasicQueueHandle :=
  justifications.foldl
    (fun acc j =>
      { acc with justification_sender :=
          acc.justification_sender.unbounded_send ⟨who, hash, number, j⟩ })
    h

/-- The worker state corresponding to a front-end handle's channels, with
the result channel open and the sub-process at its receive point. -/
def workerStateOf (h : BasicQueueHandle) : WorkerState :=
  ⟨false, h.justification_sender.queue, h.justification_sender.closed,
    h.block_import_sender.queue, h.block_import_sender.closed, .awaitingBatch⟩

/-- The hand-rolled `Yield` future: a single boolean flag. -/
structure Yield where
  flag : Bool
deriving DecidableEq

/-- `Yield::new`. -/
def Yield.new : Yield := ⟨false⟩

/-- Result of polling a future. -/
inductive Poll (α : Type) where
  | ready (a : α)
  | pending
deriving DecidableEq

/-- `Yield::poll`: on the first poll set the flag, wake the task's waker by
reference and return `Pending`; on any later poll return `Ready`.  The
third component records whether `wake_by_ref` was called. -/
def Yield.poll : Yield → Poll Unit × Yield × Bool
  | ⟨false⟩ => (.pending, ⟨true⟩, true)
  | ⟨true⟩ => (.ready (), ⟨true⟩, false)

/-- The per-block result recorded by one `import_many_blocks` loop
iteration: `Cancelled` once the batch has failed, otherwise the verified
and imported result. -/
def stepResult (c : Collaborators) (origin : BlockOrigin) (st : BatchState)
    (block : IncomingBlock) : BlockResult :=
  if st.has_error then .err .cancelled else (processOneBlock c origin block).1

/-- Number of `Ok` entries in a per-block result list. -/
def okCount (rs : List (BlockResult × Hash)) : Nat :=
  rs.countP (fun r => r.1.isOk)

/-- Concrete all-succeeding collaborators (used for concrete instances of
the theorems below): verification yields adjusted parameters and
the import accepts them. -/
def allOkCollab : Collaborators :=
  { verify := fun _ b => .ok (.verified ⟨b.hash⟩)
    importBlock := fun p => .ok ⟨p.payload⟩ }

/-- Concrete collaborators whose verification fails exactly on the block
with hash 3 (used for concrete instances of the theorems below). -/
def cexCollab : Collaborators :=
  { verify := fun _ b =>
      if b.hash = 3 then .err .verificationFailed else .ok (.verified ⟨b.hash⟩)
    importBlock := fun p => .ok ⟨p.payload⟩ }

/-- A concrete incoming block with the given hash. -/
def mkBlock (h : Hash) : IncomingBlock :=
  ⟨h, some ⟨h⟩, none, none, none, none, false, false, false, none⟩

/-- A concrete justification-import collaborator that accepts every
justification and reports nothing at start-up. -/
def okJI : JustificationImportOracle :=
  ⟨[], fun _ _ _ => .ok ()⟩

/-- A concrete justification-import collaborator whose start-up hook
reports one block still needing a justification. -/
def startJI : JustificationImportOracle :=
  ⟨[(5, 9)], fun _ _ _ => .ok ()⟩

/-- A concrete justification request message for the given hash. -/
def mkJust (h : Hash) : ImportJustificationMsg := ⟨7, h, 1, (0, [])⟩

/-- The pre-enqueued scenario of the source's priority test: six one-block
batches and three justification requests, all enqueued before the worker
is first polled, every channel open. -/
def scratchState : WorkerState :=
  ⟨false, [mkJust 101, mkJust 102, mkJust 103],
    false,
    [⟨.own, [mkBlock 1]⟩, ⟨.own, [mkBlock 2]⟩, ⟨.own, [mkBlock 3]⟩,
      ⟨.own, [mkBlock 4]⟩, ⟨.own, [mkBlock 5]⟩, ⟨.own, [mkBlock 6]⟩],
    false, .awaitingBatch⟩

/-! ### Lemmas about the batch importer -/

lemma importStep_eq (c : Collaborators) (o : BlockOrigin) (st : BatchState)
    (b : IncomingBlock) :
    importStep c o st b =
      { imported := if (stepResult c o st b).isOk then st.imported + 1
          else st.imported
        results := st.results ++ [(stepResult c o st b, b.hash)]
        has_error := st.has_error || !(stepResult c o st b).isOk
        events := st.events ++
          (if st.has_error then [] else (processOneBlock c o b).2) ++
          [.yielded] } := by
  rcases hpb : processOneBlock c o b with ⟨r, evs⟩
  by_cases hst : st.has_error <;> simp [importStep, stepResult, hst, hpb]

lemma importFold_length (c : Collaborators) (o : BlockOrigin)
    (blocks : List IncomingBlock) :
    ∀ st : BatchState,
      ((blocks.foldl (importStep c o) st).results).length =
        st.results.length + blocks.length := by
  induction blocks with
  | nil => intro st; simp
  | cons b bs ih =>
      intro st
      rw [List.foldl_cons, ih]
      simp [importStep_eq]
      omega

lemma importFold_snd (c : Collaborators) (o : BlockOrigin)
    (blocks : List IncomingBlock) :
    ∀ st : BatchState,
      (blocks.foldl (importStep c o) st).results.map Prod.snd =
        st.results.map Prod.snd ++ blocks.map IncomingBlock.hash := by
  induction blocks with
  | nil => intro st; simp
  | cons b bs ih =>
      intro st
      rw [List.foldl_cons, ih]
      simp [importStep_eq]

lemma importFold_okCount (c : Collaborators) (o : BlockOrigin)
    (blocks : List IncomingBlock) :
    ∀ st : BatchState, st.imported = okCount st.results →
      (blocks.foldl (importStep c o) st).imported =
        okCount (blocks.foldl (importStep c o) st).results := by
  induction blocks with
  | nil => intro st hst; simpa using hst
  | cons b bs ih =>
      intro st hst
      rw [List.foldl_cons]
      refine ih _ ?_
      rw [importStep_eq]
      rcases hres : (stepResult c o st b).isOk <;>
        simp [okCount, List.countP_append, hres, hst, List.countP_cons]

lemma importFold_cancelled (c : Collaborators) (o : BlockOrigin)
    (blocks : List IncomingBlock) :
    ∀ st : BatchState, st.has_error = true →
      blocks.foldl (importStep c o) st =
        ⟨st.imported,
          st.results ++ blocks.map (fun b => (BlockResult.err .cancelled, b.hash)),
          true,
          st.events ++ List.replicate blocks.length BatchEvent.yielded⟩ := by
  induction blocks with
  | nil => intro st hst; cases st; simp_all
  | cons b bs ih =>
      intro st hst
      rw [List.foldl_cons, ih _ (by simp [importStep_eq, hst])]
      simp [importStep_eq, stepResult, BlockResult.isOk, hst, List.replicate_succ]

lemma importFold_allOk (c : Collaborators) (o : BlockOrigin)
    (pre : List IncomingBlock) :
    ∀ st : BatchState, st.has_error = false →
      (∀ b ∈ pre, (processOneBlock c o b).1.isOk = true) →
      pre.foldl (importStep c o) st =
        ⟨st.imported + pre.length,
          st.results ++ pre.map (fun b => ((processOneBlock c o b).1, b.hash)),
          false,
          st.events ++
            (pre.map (fun b => (processOneBlock c o b).2 ++ [BatchEvent.yielded])).flatten⟩ := by
  induction pre with
  | nil => intro st hst _; cases st; simp_all
  | cons b bs ih =>
      intro st hst hok
      have hb : (processOneBlock c o b).1.isOk = true :=
        hok b (List.mem_cons_self b bs)
      rw [List.foldl_cons,
        ih _ (by simp [importStep_eq, stepResult, hst, hb])
          (fun x hx => hok x (List.mem_cons_of_mem _ hx))]
      simp [importStep_eq, stepResult, hst, hb]
      omega

lemma importFold_yieldCount (c : Collaborators) (o : BlockOrigin)
    (blocks : List IncomingBlock) :
    ∀ st : BatchState,
      (blocks.foldl (importStep c o) st).events.count BatchEvent.yielded =
        st.events.count BatchEvent.yielded + blocks.length := by
  induction blocks with
  | nil => intro st; simp
  | cons b bs ih =>
      intro st
      rw [List.foldl_cons, ih]
      rw [importStep_eq]
      simp [List.count_append]
      rcases hv : c.verify o b with o1 | e
      · by_cases hst : st.has_error
        · simp [hst]
          omega
        · rcases o1 with s | p <;> simp [hst, processOneBlock, hv] <;> omega
      · by_cases hst : st.has_error <;> simp [hst, processOneBlock, hv] <;> omega

/-! ### Lemmas about the worker state machine -/

lemma bipReceive_done (c : Collaborators) :
    ∀ (q : List ImportBlocksMsg) (closed : Bool),
      (bipReceive c q closed).done = true →
      closed = true ∧ (bipReceive c q closed).queue = [] := by
  intro q
  induction q with
  | nil => intro closed h; simpa [bipReceive] using h
  | cons msg rest ih =>
      intro closed h
      rcases msg with ⟨o, blocks⟩
      cases blocks with
      | nil =>
          simp [bipReceive] at h ⊢
          exact ih closed h
      | cons b bs => simp [bipReceive] at h

lemma pollBIP_done (c : Collaborators) (st : BIPState)
    (q : List ImportBlocksMsg) (closed : Bool) :
    (pollBIP c st q closed).done = true →
    closed = true ∧ (pollBIP c st q closed).queue = [] := by
  cases st with
  | awaitingBatch => exact bipReceive_done c q closed
  | midBatch o bst remaining count =>
      cases remaining with
      | nil =>
          intro h
          simp [pollBIP] at h ⊢
          exact bipReceive_done c q closed h
      | cons b bs => intro h; simp [pollBIP] at h

lemma pollBIP_not_done (c : Collaborators) (st : BIPState)
    (q : List ImportBlocksMsg) :
    (pollBIP c st q false).done = false := by
  cases h : (pollBIP c st q false).done
  · rfl
  · rcases pollBIP_done c st q false h with ⟨hc, _⟩
    simp at hc

lemma bipReceive_out_bp (c : Collaborators) :
    ∀ (q : List ImportBlocksMsg) (closed : Bool),
      ∀ m ∈ (bipReceive c q closed).out,
        ∃ i t rs, m = OutMsg.blocksProcessed i t rs := by
  intro q
  induction q with
  | nil => intro closed m hm; simp [bipReceive] at hm
  | cons msg rest ih =>
      intro closed m hm
      rcases msg with ⟨o, blocks⟩
      cases blocks with
      | nil =>
          simp [bipReceive] at hm
          rcases hm with h | h
          · exact ⟨0, 0, [], h⟩
          · exact ih closed m h
      | cons b bs => simp [bipReceive] at hm

lemma pollBIP_out_bp (c : Collaborators) (st : BIPState)
    (q : List ImportBlocksMsg) (closed : Bool) :
    ∀ m ∈ (pollBIP c st q closed).out,
      ∃ i t rs, m = OutMsg.blocksProcessed i t rs := by
  cases st with
  | awaitingBatch => exact bipReceive_out_bp c q closed
  | midBatch o bst remaining count =>
      cases remaining with
      | nil =>
          intro m hm
          simp [pollBIP] at hm
          rcases hm with h | h
          · exact ⟨_, _, _, h⟩
          · exact bipReceive_out_bp c q closed m h
      | cons b bs => intro m hm; simp [pollBIP] at hm

lemma workerPoll_open (c : Collaborators) (ji : Option JustificationImportOracle)
    (s : WorkerState) (hrc : s.resultClosed = false) (hjc : s.justClosed = false) :
    workerPoll c ji s =
      (⟨s.resultClosed, [], s.justClosed,
          (pollBIP c s.bip s.blockQueue s.blockClosed).queue, s.blockClosed,
          (pollBIP c s.bip s.blockQueue s.blockClosed).state⟩,
        drainJustifications ji s.justQueue ++
          (pollBIP c s.bip s.blockQueue s.blockClosed).out,
        if (pollBIP c s.bip s.blockQueue s.blockClosed).done then .ready
        else .pending) := by
  cases s
  simp at hrc hjc
  simp [workerPoll, hrc, hjc]

lemma workerRun_succ_pending (c : Collaborators)
    (ji : Option JustificationImportOracle) (n : Nat) (s : WorkerState)
    (h : (workerPoll c ji s).2.2 = .pending) :
    workerRun c ji (n + 1) s =
      ((workerRun c ji n (workerPoll c ji s).1).1,
        (workerPoll c ji s).2.1 ++ (workerRun c ji n (workerPoll c ji s).1).2.1,
        (workerRun c ji n (workerPoll c ji s).1).2.2) := by
  rcases hp : workerPoll c ji s with ⟨s', out, pr⟩
  rw [hp] at h
  cases pr with
  | ready => simp at h
  | pending => simp [workerRun, hp]

lemma workerRun_noJust_bp (c : Collaborators)
    (ji : Option JustificationImportOracle) :
    ∀ (fuel : Nat) (s : WorkerState), s.justQueue = [] →
      ∀ m ∈ (workerRun c ji fuel s).2.1,
        ∃ i t rs, m = OutMsg.blocksProcessed i t rs := by
  intro fuel
  induction fuel with
  | zero => intro s hq m hm; simp [workerRun] at hm
  | succ n ih =>
      intro s hq m hm
      cases hrc : s.resultClosed with
      | true => simp [workerRun, workerPoll, hrc] at hm
      | false =>
          cases hjc : s.justClosed with
          | true =>
              simp [workerRun, workerPoll, hrc, hjc, hq, drainJustifications] at hm
          | false =>
              cases hdone : (pollBIP c s.bip s.blockQueue s.blockClosed).done with
              | true =>
                  simp [workerRun, workerPoll, hrc, hjc, hq, drainJustifications,
                    hdone] at hm
                  exact pollBIP_out_bp c s.bip s.blockQueue s.blockClosed m hm
              | false =>
                  simp [workerRun, workerPoll, hrc, hjc, hq, drainJustifications,
                    hdone] at hm
                  rcases hm with h | h
                  · exact pollBIP_out_bp c s.bip s.blockQueue s.blockClosed m h
                  · exact ih _ rfl m h

lemma drainJustifications_out_kind (ji : Option JustificationImportOracle)
    (msgs : List ImportJustificationMsg) :
    ∀ m ∈ drainJustifications ji msgs,
      ∃ w hh nn r, m = OutMsg.justificationImported w hh nn r := by
  intro m hm
  simp [drainJustifications] at hm
  rcases hm with ⟨x, hx, rfl⟩
  exact ⟨x.who, x.hash, x.number, _, rfl⟩

lemma workerRun_out_kinds (c : Collaborators)
    (ji : Option JustificationImportOracle) :
    ∀ (fuel : Nat) (s : WorkerState),
      ∀ m ∈ (workerRun c ji fuel s).2.1,
        (∃ w hh nn r, m = OutMsg.justificationImported w hh nn r) ∨
          ∃ i t rs, m = OutMsg.blocksProcessed i t rs := by
  intro fuel
  induction fuel with
  | zero => intro s m hm; simp [workerRun] at hm
  | succ n ih =>
      intro s m hm
      cases hrc : s.resultClosed with
      | true => simp [workerRun, workerPoll, hrc] at hm
      | false =>
          cases hjc : s.justClosed with
          | true =>
              simp only [workerRun, workerPoll, hrc, hjc] at hm
              simp at hm
              exact Or.inl (drainJustifications_out_kind ji s.justQueue m hm)
          | false =>
              cases hdone : (pollBIP c s.bip s.blockQueue s.blockClosed).done with
              | true =>
                  simp [workerRun, workerPoll, hrc, hjc, hdone] at hm
                  rcases hm with h | h
                  · exact Or.inl (drainJustifications_out_kind ji s.justQueue m h)
                  · exact Or.inr
                      (pollBIP_out_bp c s.bip s.blockQueue s.blockClosed m h)
              | false =>
                  simp [workerRun, workerPoll, hrc, hjc, hdone] at hm
                  rcases hm with h | h | h
                  · exact Or.inl (drainJustifications_out_kind ji s.justQueue m h)
                  · exact Or.inr
                      (pollBIP_out_bp c s.bip s.blockQueue s.blockClosed m h)
                  · exact ih _ m h

lemma workerRun_idle (c : Collaborators) (ji : Option JustificationImportOracle) :
    ∀ fuel : Nat,
      workerRun c ji fuel ⟨false, [], false, [], false, .awaitingBatch⟩ =
        (⟨false, [], false, [], false, .awaitingBatch⟩, [], false) := by
  intro fuel
  induction fuel with
  | zero => simp [workerRun]
  | succ n ih =>
      simp [workerRun, workerPoll, drainJustifications, pollBIP, bipReceive, ih]

lemma workerRun_midBatch (c : Collaborators)
    (ji : Option JustificationImportOracle) (o : BlockOrigin) (count : Nat) :
    ∀ (remaining : List IncomingBlock) (st : BatchState) (m : Nat),
      remaining.length + 1 ≤ m →
      (workerRun c ji m
          ⟨false, [], false, [], false, .midBatch o st remaining count⟩).2.1 =
        [OutMsg.blocksProcessed (remaining.foldl (importStep c o) st).imported
          count (remaining.foldl (importStep c o) st).results] := by
  intro remaining
  induction remaining with
  | nil =>
      intro st m hm
      obtain ⟨k, rfl⟩ : ∃ k, m = k + 1 := ⟨m - 1, by omega⟩
      simp [workerRun, workerPoll, drainJustifications, pollBIP, bipReceive,
        workerRun_idle]
  | cons b bs ih =>
      intro st m hm
      obtain ⟨k, rfl⟩ : ∃ k, m = k + 1 := ⟨m - 1, by simp at hm; omega⟩
      have hk : bs.length + 1 ≤ k := by simp at hm; omega
      simp only [workerRun, workerPoll, drainJustifications, pollBIP]
      simp [List.foldl_cons]
      exact ih (importStep c o st b) k hk

/-! ### Claim theorems -/

/-- Claim C2: fail-fast within a batch — when the blocks before `bad` all
succeed and `bad` fails (verification or import), every block after `bad`
receives outcome `Cancelled`, the verifier and importer are not invoked
for it (the event log records only the yields for those blocks), and
the imported count stops at the successful prefix. -/
theorem fail_fast_within_batch (c : Collaborators) (o : BlockOrigin)
    (pre : List IncomingBlock) (bad : IncomingBlock) (post : List IncomingBlock)
    (hpre : ∀ b ∈ pre, (processOneBlock c o b).1.isOk = true)
    (hbad : (processOneBlock c o bad).1.isOk = false) :
    (import_many_blocks c o (pre ++ bad :: post)).results =
        pre.map (fun b => ((processOneBlock c o b).1, b.hash)) ++
          ((processOneBlock c o bad).1, bad.hash) ::
            post.map (fun b => (BlockResult.err .cancelled, b.hash)) ∧
      (import_many_blocks c o (pre ++ bad :: post)).imported = pre.length ∧
      (import_many_blocks c o (pre ++ bad :: post)).block_count =
        pre.length + 1 + post.length ∧
      (import_many_blocks c o (pre ++ bad :: post)).events =
        (pre.map (fun b => (processOneBlock c o b).2 ++ [BatchEvent.yielded])).flatten
          ++ ((processOneBlock c o bad).2 ++ [BatchEvent.yielded])
          ++ List.replicate post.length BatchEvent.yielded ∧
      ∃ e, (processOneBlock c o bad).1 = .err e := by
  have hfold :
      (pre ++ bad :: post).foldl (importStep c o) initialBatchState =
        post.foldl (importStep c o)
          (importStep c o (pre.foldl (importStep c o) initialBatchState) bad) := by
    rw [List.foldl_append, List.foldl_cons]
  have hpreF := importFold_allOk c o pre initialBatchState rfl hpre
  have hbadStep :
      importStep c o (pre.foldl (importStep c o) initialBatchState) bad =
        ⟨pre.length,
          pre.map (fun b => ((processOneBlock c o b).1, b.hash)) ++
            [((processOneBlock c o bad).1, bad.hash)],
          true,
          (pre.map (fun b => (processOneBlock c o b).2 ++ [BatchEvent.yielded])).flatten
            ++ (processOneBlock c o bad).2 ++ [BatchEvent.yielded]⟩ := by
    rw [hpreF, importStep_eq]
    simp [stepResult, hbad, initialBatchState]
  have hfinal :
      (pre ++ bad :: post).foldl (importStep c o) initialBatchState =
        ⟨pre.length,
          pre.map (fun b => ((processOneBlock c o b).1, b.hash)) ++
            ((processOneBlock c o bad).1, bad.hash) ::
              post.map (fun b => (BlockResult.err .cancelled, b.hash)),
          true,
          (pre.map (fun b => (processOneBlock c o b).2 ++ [BatchEvent.yielded])).flatten
            ++ ((processOneBlock c o bad).2 ++ [BatchEvent.yielded])
            ++ List.replicate post.length BatchEvent.yielded⟩ := by
    rw [hfold, hbadStep]
    rw [importFold_cancelled c o post
      ⟨pre.length,
        pre.map (fun b => ((processOneBlock c o b).1, b.hash)) ++
          [((processOneBlock c o bad).1, bad.hash)],
        true,
        (pre.map (fun b => (processOneBlock c o b).2 ++ [BatchEvent.yielded])).flatten
          ++ (processOneBlock c o bad).2 ++ [BatchEvent.yielded]⟩ rfl]
    simp
  refine ⟨?_, ?_, ?_, ?_, ?_⟩
  · simp [import_many_blocks, hfinal]
  · simp [import_many_blocks, hfinal]
  · simp [import_many_blocks]
    omega
  · simp [import_many_blocks, hfinal]
  · cases hres : (processOneBlock c o bad).1 with
    | ok s => rw [hres] at hbad; simp [BlockResult.isOk] at hbad
    | err e => exact ⟨e, rfl⟩

/-- Witness for C2 at the claim's concrete instance: a 5-block batch whose
third block fails verification yields outcomes
`[Ok, Ok, Err, Cancelled, Cancelled]` with `imported = 2` and
`total = 5`. -/
theorem fail_fast_within_batch_witness :
    (import_many_blocks cexCollab .own
        [mkBlock 1, mkBlock 2, mkBlock 3, mkBlock 4, mkBlock 5]).results =
        [(.ok ⟨1⟩, 1), (.ok ⟨2⟩, 2), (.err .verificationFailed, 3),
          (.err .cancelled, 4), (.err .cancelled, 5)] ∧
      (import_many_blocks cexCollab .own
        [mkBlock 1, mkBlock 2, mkBlock 3, mkBlock 4, mkBlock 5]).imported = 2 ∧
      (import_many_blocks cexCollab .own
        [mkBlock 1, mkBlock 2, mkBlock 3, mkBlock 4, mkBlock 5]).block_count = 5 := by
  have h := fail_fast_within_batch cexCollab .own [mkBlock 1, mkBlock 2]
    (mkBlock 3) [mkBlock 4, mkBlock 5] (by decide) (by decide)
  exact ⟨h.1.trans (by decide), h.2.1.trans (by decide), h.2.2.1.trans (by decide)⟩

/-- Claim C3: batch result shape — for a batch of `N` blocks the
`ImportManyBlocksResult` has `block_count = N`, a results list of length
exactly `N` in the order of the supplied blocks (paired with each block's
hash), and an imported count equal to the number of `Ok` entries; and the
worker delivers the whole result to the result channel in a single
`blocks_processed` call. -/
theorem batch_result_shape (c : Collaborators)
    (ji : Option JustificationImportOracle) (o : BlockOrigin)
    (blocks : List IncomingBlock) (n : Nat)
    (hne : blocks ≠ []) (hn : blocks.length + 1 ≤ n) :
    (import_many_blocks c o blocks).block_count = blocks.length ∧
    (import_many_blocks c o blocks).results.length = blocks.length ∧
    (import_many_blocks c o blocks).results.map Prod.snd =
      blocks.map IncomingBlock.hash ∧
    (import_many_blocks c o blocks).imported =
      okCount (import_many_blocks c o blocks).results ∧
    (workerRun c ji n
        ⟨false, [], false, [⟨o, blocks⟩], false, .awaitingBatch⟩).2.1 =
      [OutMsg.blocksProcessed (import_many_blocks c o blocks).imported
        (import_many_blocks c o blocks).block_count
        (import_many_blocks c o blocks).results] := by
  refine ⟨rfl, ?_, ?_, ?_, ?_⟩
  · simpa [import_many_blocks, initialBatchState]
      using importFold_length c o blocks initialBatchState
  · simpa [import_many_blocks, initialBatchState]
      using importFold_snd c o blocks initialBatchState
  · simpa [import_many_blocks, initialBatchState]
      using importFold_okCount c o blocks initialBatchState rfl
  · cases blocks with
    | nil => exact absurd rfl hne
    | cons b bs =>
        obtain ⟨k, rfl⟩ : ∃ k, n = k + 1 := ⟨n - 1, by omega⟩
        have hk : bs.length + 1 ≤ k := by simp at hn; omega
        simp only [workerRun, workerPoll, drainJustifications, pollBIP, bipReceive]
        simp only [List.map_nil, List.nil_append]
        simp
        rw [workerRun_midBatch c ji o (bs.length + 1) bs
          (importStep c o initialBatchState b) k hk]
        simp [import_many_blocks, List.foldl_cons]

/-- Witness for C3: a concrete 2-block all-succeeding batch, driven with
fuel 3, delivers its full result in one `blocks_processed` call. -/
theorem batch_result_shape_witness :
    (import_many_blocks allOkCollab .own [mkBlock 1, mkBlock 2]).block_count =
        [mkBlock 1, mkBlock 2].length ∧
      (import_many_blocks allOkCollab .own [mkBlock 1, mkBlock 2]).results.length =
        [mkBlock 1, mkBlock 2].length ∧
      (import_many_blocks allOkCollab .own
          [mkBlock 1, mkBlock 2]).results.map Prod.snd =
        [mkBlock 1, mkBlock 2].map IncomingBlock.hash ∧
      (import_many_blocks allOkCollab .own [mkBlock 1, mkBlock 2]).imported =
        okCount (import_many_blocks allOkCollab .own [mkBlock 1, mkBlock 2]).results ∧
      (workerRun allOkCollab none 3
          ⟨false, [], false, [⟨.own, [mkBlock 1, mkBlock 2]⟩], false,
            .awaitingBatch⟩).2.1 =
        [OutMsg.blocksProcessed
          (import_many_blocks allOkCollab .own [mkBlock 1, mkBlock 2]).imported
          (import_many_blocks allOkCollab .own [mkBlock 1, mkBlock 2]).block_count
          (import_many_blocks allOkCollab .own [mkBlock 1, mkBlock 2]).results] :=
  batch_result_shape allOkCollab none .own [mkBlock 1, mkBlock 2] 3
    (by decide) (by decide)

/-- Claim C1: priority invariant — with any set of justification requests
and block-import requests enqueued before the worker is first polled (and
no later enqueues), the delivered trace starts with the outcome of every
justification request, in FIFO arrival order, and everything after them
is a `blocks_processed` delivery; moreover in every loop iteration of an
open worker the justification queue is drained to exhaustion (emitting
its outcomes) before the block-import sub-process contributes anything. -/
theorem justifications_processed_first (c : Collaborators)
    (ji : Option JustificationImportOracle)
    (js : List ImportJustificationMsg) (bs : List ImportBlocksMsg)
    (n : Nat) (hn : 0 < n) :
    (∃ rest,
      (workerRun c ji n ⟨false, js, false, bs, false, .awaitingBatch⟩).2.1 =
        js.map (justificationOutcome ji) ++ rest ∧
      ∀ m ∈ rest, ∃ i t rs, m = OutMsg.blocksProcessed i t rs) ∧
    ∀ s : WorkerState, s.resultClosed = false → s.justClosed = false →
      (workerPoll c ji s).2.1 =
        drainJustifications ji s.justQueue ++
          (pollBIP c s.bip s.blockQueue s.blockClosed).out := by
  constructor
  · obtain ⟨k, rfl⟩ : ∃ k, n = k + 1 := ⟨n - 1, by omega⟩
    have hpoll := workerPoll_open c ji
      ⟨false, js, false, bs, false, .awaitingBatch⟩ rfl rfl
    have hdone : (pollBIP c .awaitingBatch bs false).done = false :=
      pollBIP_not_done c .awaitingBatch bs
    have hpend :
        (workerPoll c ji ⟨false, js, false, bs, false, .awaitingBatch⟩).2.2 =
          .pending := by
      rw [hpoll]; simp [hdone]
    rw [workerRun_succ_pending c ji k _ hpend]
    refine ⟨(pollBIP c .awaitingBatch bs false).out ++
      (workerRun c ji k
        (workerPoll c ji ⟨false, js, false, bs, false, .awaitingBatch⟩).1).2.1,
      ?_, ?_⟩
    · rw [hpoll]
      simp [drainJustifications]
    · intro m hm
      rcases List.mem_append.mp hm with h | h
      · exact pollBIP_out_bp c .awaitingBatch bs false m h
      · refine workerRun_noJust_bp c ji k _ ?_ m h
        rw [hpoll]
  · intro s hrc hjc
    rw [workerPoll_open c ji s hrc hjc]

/-- Witness for C1 at the source's own test scenario: three justification
requests and six one-block batches pre-enqueued, fuel 20. -/
theorem justifications_processed_first_witness :
    (∃ rest,
      (workerRun allOkCollab (some okJI) 20
          ⟨false, [mkJust 101, mkJust 102, mkJust 103], false,
            [⟨.own, [mkBlock 1]⟩, ⟨.own, [mkBlock 2]⟩, ⟨.own, [mkBlock 3]⟩,
              ⟨.own, [mkBlock 4]⟩, ⟨.own, [mkBlock 5]⟩, ⟨.own, [mkBlock 6]⟩],
            false, .awaitingBatch⟩).2.1 =
        [mkJust 101, mkJust 102, mkJust 103].map
          (justificationOutcome (some okJI)) ++ rest ∧
      ∀ m ∈ rest, ∃ i t rs, m = OutMsg.blocksProcessed i t rs) ∧
    ∀ s : WorkerState, s.resultClosed = false → s.justClosed = false →
      (workerPoll allOkCollab (some okJI) s).2.1 =
        drainJustifications (some okJI) s.justQueue ++
          (pollBIP allOkCollab s.bip s.blockQueue s.blockClosed).out :=
  justifications_processed_first allOkCollab (some okJI)
    [mkJust 101, mkJust 102, mkJust 103]
    [⟨.own, [mkBlock 1]⟩, ⟨.own, [mkBlock 2]⟩, ⟨.own, [mkBlock 3]⟩,
      ⟨.own, [mkBlock 4]⟩, ⟨.own, [mkBlock 5]⟩, ⟨.own, [mkBlock 6]⟩]
    20 (by decide)

/-- Claim C4: justification outcome classification — with a configured
justification-import collaborator, `Ok(())` maps to `Success`,
`Err(OutdatedJustification)` to `OutdatedJustification`, and any other
error to `Failure`; and the outcome of one justification does not affect
the processing of subsequent requests (the drain treats each request
independently and never drops one). -/
theorem justification_outcome_classification (ji : JustificationImportOracle)
    (h : Hash) (n : BlockNumber) (j : Justification) :
    (ji.import_justification h n j = .ok () →
      import_justification_result (some ji) h n j = .success) ∧
    (ji.import_justification h n j = .error .outdatedJustification →
      import_justification_result (some ji) h n j = .outdatedJustification) ∧
    (∀ e, e ≠ ConsensusError.outdatedJustification →
      ji.import_justification h n j = .error e →
      import_justification_result (some ji) h n j = .failure) ∧
    (∀ m rest, drainJustifications (some ji) (m :: rest) =
      justificationOutcome (some ji) m :: drainJustifications (some ji) rest) ∧
    ∀ msgs : List ImportJustificationMsg,
      (drainJustifications (some ji) msgs).length = msgs.length := by
  refine ⟨?_, ?_, ?_, fun m rest => rfl, fun msgs => by
    simp [drainJustifications]⟩
  · intro he; simp [import_justification_result, he]
  · intro he; simp [import_justification_result, he]
  · intro e hne he
    cases e with
    | outdatedJustification => exact absurd rfl hne
    | other => simp [import_justification_result, he]

/-- Witness for C4 with the always-accepting collaborator. -/
theorem justification_outcome_classification_witness :
    okJI.import_justification 1 1 (0, []) = .ok () ∧
    import_justification_result (some okJI) 1 1 (0, []) = .success :=
  ⟨rfl, (justification_outcome_classification okJI 1 1 (0, [])).1 rfl⟩

/-- Claim C5: fatal termination conditions — a poll of the worker returns
(terminates it) exactly when the consumer has closed the result channel
(checked at the top of the iteration), or the justification channel is
closed (its queue having been drained, outcomes still delivered), or the
block-import sub-process concludes — which can happen only when the block
channel is closed and fully drained. -/
theorem worker_fatal_termination (c : Collaborators)
    (ji : Option JustificationImportOracle) (s : WorkerState) :
    ((workerPoll c ji s).2.2 = .ready ↔
      s.resultClosed = true ∨ s.justClosed = true ∨
        (pollBIP c s.bip s.blockQueue s.blockClosed).done = true) ∧
    ((pollBIP c s.bip s.blockQueue s.blockClosed).done = true →
      s.blockClosed = true ∧
        (pollBIP c s.bip s.blockQueue s.blockClosed).queue = []) ∧
    (s.resultClosed = false → s.justClosed = true →
      (workerPoll c ji s).2.1 = drainJustifications ji s.justQueue) := by
  refine ⟨?_, pollBIP_done c s.bip s.blockQueue s.blockClosed, ?_⟩
  · cases hrc : s.resultClosed with
    | true => simp [workerPoll, hrc]
    | false =>
        cases hjc : s.justClosed with
        | true => simp [workerPoll, hrc, hjc]
        | false =>
            cases hdone : (pollBIP c s.bip s.blockQueue s.blockClosed).done with
            | true => simp [workerPoll, hrc, hjc, hdone]
            | false => simp [workerPoll, hrc, hjc, hdone]
  · intro hrc hjc
    simp [workerPoll, hrc, hjc]

/-- Witness for C5: a worker whose consumer closed the result channel
terminates at the next poll. -/
theorem worker_fatal_termination_witness :
    (workerPoll allOkCollab none
        ⟨true, [], false, [], false, .awaitingBatch⟩).2.2 = .ready :=
  (worker_fatal_termination allOkCollab none
    ⟨true, [], false, [], false, .awaitingBatch⟩).1.mpr (Or.inl rfl)

/-- Claim C6: start-up hook — with a configured justification-import
collaborator the worker emits, before its main loop, exactly one
`request_justification` notification per `(hash, number)` pair returned by
`on_start()`, in order; with no collaborator it emits none, and the main
loop itself never emits a `request_justification`. -/
theorem startup_requests_justifications (c : Collaborators)
    (ji : Option JustificationImportOracle) (fuel : Nat) (s : WorkerState) :
    workerTrace c ji fuel s =
        workerStartupOut ji ++ (workerRun c ji fuel s).2.1 ∧
      (∀ j, ji = some j → workerStartupOut ji =
        j.on_start.map (fun p => OutMsg.requestJustification p.1 p.2)) ∧
      (ji = none → workerStartupOut ji = []) ∧
      ∀ m ∈ (workerRun c ji fuel s).2.1, ∀ hh nn,
        m ≠ OutMsg.requestJustification hh nn := by
  refine ⟨rfl, fun j hj => by rw [hj]; rfl, fun hj => by rw [hj]; rfl, ?_⟩
  intro m hm hh nn
  rcases workerRun_out_kinds c ji fuel s m hm with ⟨w, h1, n1, r1, rfl⟩ |
    ⟨i, t, rs, rfl⟩ <;> simp

/-- Witness for C6: the collaborator whose start-up hook reports block
`(5, 9)` produces exactly that `request_justification` notification. -/
theorem startup_requests_justifications_witness :
    workerTrace allOkCollab (some startJI) 1 scratchState =
        workerStartupOut (some startJI) ++
          (workerRun allOkCollab (some startJI) 1 scratchState).2.1 ∧
      workerStartupOut (some startJI) =
        startJI.on_start.map (fun p => OutMsg.requestJustification p.1 p.2) ∧
      ∀ m ∈ (workerRun allOkCollab (some startJI) 1 scratchState).2.1,
        ∀ hh nn, m ≠ OutMsg.requestJustification hh nn := by
  have h := startup_requests_justifications allOkCollab (some startJI) 1
    scratchState
  exact ⟨h.1, h.2.1 startJI rfl, h.2.2.2⟩

/-- Claim C7: the Yield primitive — the first poll of a fresh `Yield` sets
its flag, wakes the task's waker and returns `Pending`; every poll of a
`Yield` whose flag is set returns `Ready` (so it suspends exactly once);
and `import_many_blocks` awaits exactly one `Yield` per block of the
batch, success or failure. -/
theorem yield_suspends_exactly_once (c : Collaborators) (o : BlockOrigin)
    (blocks : List IncomingBlock) (y : Yield) (hy : y.flag = true) :
    Yield.new.poll = (Poll.pending, ⟨true⟩, true) ∧
      y.poll = (Poll.ready (), y, false) ∧
      (import_many_blocks c o blocks).events.count BatchEvent.yielded =
        blocks.length := by
  refine ⟨rfl, ?_, ?_⟩
  · rcases y with ⟨fl⟩
    simp at hy
    subst hy
    rfl
  · simpa [import_many_blocks, initialBatchState]
      using importFold_yieldCount c o blocks initialBatchState

/-- Witness for C7: concrete Yield states and a concrete 2-block batch
with exactly two yields. -/
theorem yield_suspends_exactly_once_witness :
    Yield.new.poll = (Poll.pending, ⟨true⟩, true) ∧
      Yield.poll ⟨true⟩ = (Poll.ready (), ⟨true⟩, false) ∧
      (import_many_blocks allOkCollab .own
          [mkBlock 1, mkBlock 2]).events.count BatchEvent.yielded =
        [mkBlock 1, mkBlock 2].length :=
  yield_suspends_exactly_once allOkCollab .own [mkBlock 1, mkBlock 2]
    ⟨true⟩ (by decide)

/-- Claim C8: empty-batch no-op — `import_blocks(origin, [])` leaves the
handle (hence the block channel) unchanged, so the worker's delivered
trace is unchanged and no Link callback can result from the call. -/
theorem empty_batch_noop (h : BasicQueueHandle) (origin : BlockOrigin) :
    h.import_blocks origin [] = h ∧
    ∀ (c : Collaborators) (ji : Option JustificationImportOracle) (fuel : Nat),
      workerTrace c ji fuel (workerStateOf (h.import_blocks origin [])) =
        workerTrace c ji fuel (workerStateOf h) := by
  have he : h.import_blocks origin [] = h := by
    simp [BasicQueueHandle.import_blocks]
  exact ⟨he, fun c ji fuel => by rw [he]⟩

/-- Claim C9: idempotent close — closing the front-end handle twice gives
the same handle state as closing it once (no panic is modelled: `close`
is a total function), and both sender channels are closed after the first
call. -/
theorem close_idempotent (h : BasicQueueHandle) :
    h.close.close = h.close ∧
      h.close.justification_sender.closed = true ∧
      h.close.block_import_sender.closed = true := by
  refine ⟨?_, rfl, rfl⟩
  simp [BasicQueueHandle.close]

/-- Claim C10: with no justification-import collaborator configured, every
justification request still produces a delivered outcome — classified
`Failure` — and none is silently dropped (the drain maps every request to
a `justification_imported` delivery). -/
theorem no_collaborator_reports_failure (hsh : Hash) (num : BlockNumber)
    (j : Justification) (msgs : List ImportJustificationMsg) :
    import_justification_result none hsh num j = .failure ∧
      drainJustifications none msgs =
        msgs.map (fun m =>
          OutMsg.justificationImported m.who m.hash m.number .failure) ∧
      (drainJustifications none msgs).length = msgs.length := by
  refine ⟨rfl, ?_, by simp [drainJustifications]⟩
  simp [drainJustifications, justificationOutcome, import_justification_result]
